import Mathlib

/-!
Verification development for the PersonalizedRealEstateAgent repository.

The repository consists of three sequential Python scripts:
* `GenerateListings.py` — a bounded retry loop asking an LLM for one mock
  listing at a time, parsing the fenced JSON answer and accumulating
  listings with sequential identifiers;
* `GenerateEnhancedListings.py` — one LLM call per listing producing a
  composed descriptive line per listing, written to a text file;
* `HomeMatch.py` — builds two embedding indexes (raw JSON minus id, and the
  enhanced lines re-read from disk) and runs top-K similarity searches.

External collaborators (the LLM, the JSON encoder/decoder, the vector
store) are modelled as parameters or, where a claim is about them, from
the specification's words; everything else is translated directly from the
source.  Character strings are modelled as `List Char` so that the
Python string operations (`in`, `replace`, `split`, `str`) can be given
executable, provable embeddings.
-/

set_option maxRecDepth 8000

abbrev Str : Type := List Char

/-- The backtick character (written via its code point). -/
def tick : Char := Char.ofNat 96

/-- The `"```json"` marker checked by both generator scripts. -/
def fenceJson : Str := "```json".toList

/-- The bare code-fence marker `"```"`. -/
def fenceMark : Str := "```".toList

/-- Python `s.replace(p, r)` (non-empty pattern), written with an explicit
skip counter so the recursion is structural: `skip` counts characters that
belong to an already-replaced occurrence and must be dropped. -/
def pyReplaceGo (p r : Str) : Nat → Str → Str
  | _, [] => []
  | k + 1, _ :: cs => pyReplaceGo p r k cs
  | 0, c :: cs =>
    if p ≠ [] ∧ p <+: (c :: cs) then r ++ pyReplaceGo p r (p.length - 1) cs
    else c :: pyReplaceGo p r 0 cs

/-- Python `s.replace(p, r)`: replace every non-overlapping occurrence of
`p` in `s`, scanning left to right. -/
def pyReplace (s p r : Str) : Str := pyReplaceGo p r 0 s

/-- Python `p in s` (substring containment). -/
abbrev pyContains (s p : Str) : Prop := p <:+: s

/-- Python `s.split(sep)` for a single-character separator. -/
def splitOnChar (sep : Char) : Str → List Str
  | [] => [[]]
  | c :: cs =>
    if c = sep then [] :: splitOnChar sep cs
    else
      match splitOnChar sep cs with
      | [] => [[c]]
      | h :: t => (c :: h) :: t

/-- Python `f.readlines()`: split the file contents into lines, each line
keeping its terminating newline; a final unterminated fragment is kept. -/
def readlines : Str → List Str
  | [] => []
  | c :: cs =>
    match readlines cs with
    | [] => [[c]]
    | l :: ls => if c = '\n' then [c] :: l :: ls else (c :: l) :: ls

/-- Decimal digit character. -/
def digitChar (d : Nat) : Char := Char.ofNat (48 + d)

/-- Decimal representation of a natural number (fuelled; `n + 1` units of
fuel always suffice). -/
def natChars : Nat → Nat → Str
  | 0, _ => []
  | fuel + 1, n => if n < 10 then [digitChar n] else natChars fuel (n / 10) ++ [digitChar (n % 10)]

/-- Python `str(i)` for an integer. -/
def pyStr (i : Int) : Str :=
  if i < 0 then '-' :: natChars (i.natAbs + 1) i.natAbs else natChars (i.natAbs + 1) i.natAbs

/-- A JSON scalar as it appears in a listing object: the seven descriptive
fields are strings, the identifier is an integer. -/
inductive JsonVal where
  | str : Str → JsonVal
  | int : Int → JsonVal
deriving DecidableEq

/-- A listing as built by `generate_listings`: the sequential identifier
plus the seven text fields, in the insertion order of the Python dict. -/
structure Listing where
  id : Int
  neighborhood : Str
  price : Str
  bedrooms : Str
  bathrooms : Str
  size : Str
  description : Str
  neighborhood_description : Str
deriving DecidableEq

/-- The payload of one successfully parsed LLM answer: the seven fields
read out of the JSON object (`parsed_response[...]` in the source). -/
structure ParsedListing where
  neighborhood : Str
  price : Str
  bedrooms : Str
  bathrooms : Str
  size : Str
  description : Str
  neighborhood_description : Str
deriving DecidableEq

/-- The dict literal appended by `generate_listings`: identifier `trys`
plus the seven parsed fields. -/
def mkListing (t : Int) (p : ParsedListing) : Listing :=
  ⟨t, p.neighborhood, p.price, p.bedrooms, p.bathrooms, p.size, p.description,
    p.neighborhood_description⟩

/-- The listing dict as an ordered key/value object — the shape `json.dump`
serializes and `json.load` restores (Python dicts preserve insertion
order).  Modelled from the spec: the JSON text encoding itself is the
external `json` library, out of scope; an object is modelled by its
ordered fields. -/
def dumpListing (l : Listing) : List (Str × JsonVal) :=
  [("id".toList, .int l.id),
   ("neighborhood".toList, .str l.neighborhood),
   ("price".toList, .str l.price),
   ("bedrooms".toList, .str l.bedrooms),
   ("bathrooms".toList, .str l.bathrooms),
   ("size".toList, .str l.size),
   ("description".toList, .str l.description),
   ("neighborhood_description".toList, .str l.neighborhood_description)]

/-- Python dict key access `obj[k]` on a parsed JSON object. -/
def lookupKey (obj : List (Str × JsonVal)) (k : Str) : Option JsonVal :=
  match obj with
  | [] => none
  | (k2, v) :: rest => if k2 = k then some v else lookupKey rest k

/-- Re-reading one listing object from `listings.json`: each of the eight
fields is fetched by key, with the identifier an integer and the seven
descriptive fields strings (as the downstream scripts access them). -/
def loadListing (obj : List (Str × JsonVal)) : Option Listing :=
  match lookupKey obj "id".toList, lookupKey obj "neighborhood".toList,
      lookupKey obj "price".toList, lookupKey obj "bedrooms".toList,
      lookupKey obj "bathrooms".toList, lookupKey obj "size".toList,
      lookupKey obj "description".toList,
      lookupKey obj "neighborhood_description".toList with
  | some (.int i), some (.str n), some (.str p), some (.str bd), some (.str ba),
      some (.str sz), some (.str d), some (.str nd) =>
    some ⟨i, n, p, bd, ba, sz, d, nd⟩
  | _, _, _, _, _, _, _, _ => none

/-- Re-reading the whole `listings.json` array. -/
def loadListings (objs : List (List (Str × JsonVal))) : Option (List Listing) :=
  objs.mapM loadListing

/-! ### The Generator (`GenerateListings.py`) -/

/-- `content.replace("```json", "").replace("```", "")`, the code-fence
stripping applied by both generator scripts once the `"```json"` marker
has been seen. -/
def stripFence (content : Str) : Str :=
  pyReplace (pyReplace content fenceJson []) fenceMark []

/-- The console message `f"Error parsing response \x7btrys\x7d: \x7bcontent\x7d"`
printed on a malformed response. -/
def errLine (t : Int) (content : Str) : Str :=
  "Error parsing response ".toList ++ pyStr t ++ ": ".toList ++ content

/-- What one iteration of the generation loop does to attempt number `t`:
either a listing is accepted or the attempt is skipped with a logged error
line.  `responses t` is the LLM answer of attempt `t` (the external chat
endpoint, passed as a parameter) and `jsonLoads` is the external
`json.loads`, returning the seven fields of a valid object or `none` on a
`JSONDecodeError`. -/
inductive AttemptResult where
  | accepted : Listing → AttemptResult
  | skipped : Str → AttemptResult
deriving DecidableEq

/-- One attempt of `generate_listings`: check for the `"```json"` marker
(skip and log when missing), strip fences, parse, and either accept the
listing with identifier `t` or skip and log.  Note the source mutates
`response.content` before parsing, so the parse-failure message shows the
stripped content while the no-marker message shows the original. -/
def runAttempt (jsonLoads : Str → Option ParsedListing) (responses : Int → Str)
    (t : Int) : AttemptResult :=
  if pyContains (responses t) fenceJson then
    match jsonLoads (stripFence (responses t)) with
    | some p => .accepted (mkListing t p)
    | none => .skipped (errLine t (stripFence (responses t)))
  else
    .skipped (errLine t (responses t))

/-- Loop state of `generate_listings`: the attempt counter `trys`, the
accepted listings, and the error lines printed so far. -/
structure GenState where
  trys : Int
  listings : List Listing
  log : List Str
deriving DecidableEq

/-- The `while` guard: `len(listings) < amount and trys < amount + 10`. -/
abbrev loopCond (amount : Int) (s : GenState) : Prop :=
  (s.listings.length : Int) < amount ∧ s.trys < amount + 10

/-- One iteration of the loop body: increment `trys`, run the attempt,
and either append the accepted listing or log the error line. -/
def stepState (jsonLoads : Str → Option ParsedListing) (responses : Int → Str)
    (s : GenState) : GenState :=
  match runAttempt jsonLoads responses (s.trys + 1) with
  | .accepted l => ⟨s.trys + 1, s.listings ++ [l], s.log⟩
  | .skipped m => ⟨s.trys + 1, s.listings, s.log ++ [m]⟩

/-- The `while` loop, fuelled.  Each iteration increments `trys`, so
`(amount + 10).toNat` units of fuel (supplied by `generate_listings`)
always outlast the guard `trys < amount + 10`; the exit theorems below
prove the guard is false at the returned state, i.e. fuel never runs out
before the loop would genuinely stop. -/
def generateLoop (jsonLoads : Str → Option ParsedListing) (responses : Int → Str)
    (amount : Int) : Nat → GenState → GenState
  | 0, s => s
  | fuel + 1, s =>
    if loopCond amount s then
      generateLoop jsonLoads responses amount fuel (stepState jsonLoads responses s)
    else s

/-- `generate_listings(amount)`: run the loop from `trys = 0` with no
listings accepted. -/
def generate_listings (jsonLoads : Str → Option ParsedListing)
    (responses : Int → Str) (amount : Int) : GenState :=
  generateLoop jsonLoads responses amount (amount + 10).toNat ⟨0, [], []⟩

/-- The array written (unconditionally, after the loop) to
`listings.json`: every accepted listing as an ordered JSON object. -/
def listingsFileContents (jsonLoads : Str → Option ParsedListing)
    (responses : Int → Str) (amount : Int) : List (List (Str × JsonVal)) :=
  (generate_listings jsonLoads responses amount).listings.map dumpListing

/-! ### The Enhancer (`GenerateEnhancedListings.py`) -/

/-- A LangChain `Document`: text content plus key/value metadata.  The
content type is a parameter because the raw index stores serialized JSON
objects while the semantic index stores plain text lines. -/
structure Document (α : Type) where
  page_content : α
  metadata : List (Str × JsonVal)
deriving DecidableEq

/-- The Enhancer's treatment of one LLM answer: strip code fences when the
`"```json"` marker is present, otherwise keep the answer verbatim (there
is no `else`/skip branch in this script). -/
def convertedText (content : Str) : Str :=
  if pyContains content fenceJson then stripFence content else content

/-- One enhanced document: the composed line
`"id: <id>, converted description: <llm text>, original description:
<description>, neighborhood_description: <neighborhood_description>"`,
with the listing's integer identifier as metadata.  `respond l` is the
external LLM's answer for listing `l`. -/
def enhanceDoc (respond : Listing → Str) (l : Listing) : Document Str :=
  { page_content :=
      "id: ".toList ++ pyStr l.id ++ ", converted description: ".toList ++
        convertedText (respond l) ++ ", original description: ".toList ++
        l.description ++ ", neighborhood_description: ".toList ++
        l.neighborhood_description,
    metadata := [("id".toList, .int l.id)] }

/-- `generate_enhanced_listings`: one document per listing, in input
order. -/
def generate_enhanced_listings (respond : Listing → Str)
    (listings : List Listing) : List (Document Str) :=
  listings.map (enhanceDoc respond)

/-- The text written to `semantic_enhanced_listings.txt`: each document's
`page_content` followed by a newline, in order. -/
def enhancedFileContents (respond : Listing → Str) (listings : List Listing) : Str :=
  ((generate_enhanced_listings respond listings).map
    (fun d => d.page_content ++ ['\n'])).flatten

/-! ### The Matching Pipeline (`HomeMatch.py`) -/

/-- `line.split(",")[0].split(":")[1]`: the identifier HomeMatch parses
back out of an enhanced line (a *string*, everything between the first
colon and the first comma).  `none` models the uncaught `IndexError` when
the part before the first comma has no colon. -/
def parseLineId (line : Str) : Option Str :=
  match splitOnChar ',' line with
  | [] => none
  | first :: _ =>
    match splitOnChar ':' first with
    | _ :: second :: _ => some second
    | _ => none

/-- One semantic-index document as HomeMatch builds it from a line read
back from `semantic_enhanced_listings.txt` (the line keeps its trailing
newline; the metadata identifier is the parsed string). -/
def semanticDocOfLine (line : Str) : Option (Document Str) :=
  (parseLineId line).map (fun i => ⟨line, [("id".toList, .str i)]⟩)

/-- The semantic-index documents: one per line of the file, `none` when
any line makes the metadata parse crash. -/
def semantic_enhanced_documents (file : Str) : Option (List (Document Str)) :=
  (readlines file).mapM semanticDocOfLine

/-- One raw-index document: the listing object minus the `"id"` key as
content (the source serializes it with `json.dumps`; serialization is
modelled at the object level as for `dumpListing`), with identifier,
neighborhood and price as metadata. -/
def rawDoc (l : Listing) : Document (List (Str × JsonVal)) :=
  { page_content := (dumpListing l).filter (fun kv => kv.1 ≠ "id".toList),
    metadata := [("id".toList, .int l.id),
                 ("neighborhood".toList, .str l.neighborhood),
                 ("price".toList, .str l.price)] }

/-- The raw-index documents, one per listing. -/
def raw_documents (listings : List Listing) : List (Document (List (Str × JsonVal))) :=
  listings.map rawDoc

/-- Modelled from the spec: the vector store's `similarity_search(query, k)`
(the external Chroma nearest-neighbour search, out of scope of `src/`).
The spec describes it as "run a top-K nearest-neighbor query against each
index"; nearness is abstracted into `rank`, which orders the indexed
documents by similarity to the (fixed) query, and the search returns the
first `k` of the ranked documents.  Theorems require `rank` to be a
permutation of the store. -/
def similarity_search {α : Type} (rank : List (Document α) → List (Document α))
    (docs : List (Document α)) (k : Nat) : List (Document α) :=
  (rank docs).take k

/-! ### Concrete data for witnesses and counterexamples -/

/-- A small concrete parsed payload. -/
def exParsed : ParsedListing :=
  ⟨"Green Oaks".toList, "$800".toList, "3".toList, "2".toList, "2k sqft".toList,
    "cozy".toList, "calm".toList⟩

/-- A small concrete listing (identifier 1). -/
def exListing : Listing := mkListing 1 exParsed

/-- A second concrete listing (identifier 2). -/
def exListing2 : Listing := mkListing 2 exParsed

/-- The semantic-index document HomeMatch reconstructs for listing `l`
when the Enhancer's line was written without interior newlines: the
enhanced line (with its trailing newline) as content, and as metadata
identifier the *string* between the line's first colon and first comma,
i.e. a space followed by the decimal identifier. -/
def semanticDocExpected (respond : Listing → Str) (l : Listing) : Document Str :=
  ⟨(enhanceDoc respond l).page_content ++ ['\n'],
    [("id".toList, .str (' ' :: pyStr l.id))]⟩

/-- A `json.loads` oracle that always succeeds with `exParsed`. -/
def jlAlways : Str → Option ParsedListing := fun _ => some exParsed

/-- A `json.loads` oracle that always fails. -/
def jlNever : Str → Option ParsedListing := fun _ => none

/-- An LLM oracle answering with a properly fenced payload. -/
def rsFenced : Int → Str := fun _ => "```json ok```".toList

/-- An LLM oracle answering without the `"```json"` marker. -/
def rsPlain : Int → Str := fun _ => "plain answer".toList

/-! ## Lemmas about the Generator loop -/

theorem stepState_trys (jl : Str → Option ParsedListing) (rs : Int → Str)
    (s : GenState) : (stepState jl rs s).trys = s.trys + 1 := by
  unfold stepState
  cases runAttempt jl rs (s.trys + 1) <;> rfl

theorem stepState_accepted (jl : Str → Option ParsedListing) (rs : Int → Str)
    (s : GenState) (l : Listing) (h : runAttempt jl rs (s.trys + 1) = .accepted l) :
    stepState jl rs s = ⟨s.trys + 1, s.listings ++ [l], s.log⟩ := by
  unfold stepState
  rw [h]

theorem stepState_skipped (jl : Str → Option ParsedListing) (rs : Int → Str)
    (s : GenState) (m : Str) (h : runAttempt jl rs (s.trys + 1) = .skipped m) :
    stepState jl rs s = ⟨s.trys + 1, s.listings, s.log ++ [m]⟩ := by
  unfold stepState
  rw [h]

theorem stepState_listings_length (jl : Str → Option ParsedListing) (rs : Int → Str)
    (s : GenState) :
    (stepState jl rs s).listings.length = s.listings.length ∨
      (stepState jl rs s).listings.length = s.listings.length + 1 := by
  unfold stepState
  cases runAttempt jl rs (s.trys + 1) with
  | accepted l => right; simp
  | skipped m => left; rfl

theorem generateLoop_exit (jl : Str → Option ParsedListing) (rs : Int → Str)
    (amount : Int) :
    ∀ (fuel : Nat) (s : GenState), amount + 10 - s.trys ≤ (fuel : Int) →
      ¬ loopCond amount (generateLoop jl rs amount fuel s) := by
  intro fuel
  induction fuel with
  | zero =>
    intro s h hc
    simp only [generateLoop] at hc
    exact absurd hc.2 (by omega)
  | succ n ih =>
    intro s h
    rw [generateLoop]
    by_cases hc : loopCond amount s
    · rw [if_pos hc]
      apply ih
      rw [stepState_trys]
      push_cast at h ⊢
      omega
    · rw [if_neg hc]; exact hc

theorem generateLoop_inv (jl : Str → Option ParsedListing) (rs : Int → Str)
    (amount : Int) (P : GenState → Prop)
    (hstep : ∀ s, loopCond amount s → P s → P (stepState jl rs s)) :
    ∀ (fuel : Nat) (s : GenState), P s → P (generateLoop jl rs amount fuel s) := by
  intro fuel
  induction fuel with
  | zero => intro s hs; exact hs
  | succ n ih =>
    intro s hs
    rw [generateLoop]
    by_cases hc : loopCond amount s
    · rw [if_pos hc]; exact ih _ (hstep s hc hs)
    · rw [if_neg hc]; exact hs

/-- The bounds invariant preserved by every loop iteration. -/
theorem generate_listings_inv_bounds (jl : Str → Option ParsedListing)
    (rs : Int → Str) (amount : Int) (h0 : 0 ≤ amount) :
    ((generate_listings jl rs amount).listings.length : Int) ≤ amount ∧
      0 ≤ (generate_listings jl rs amount).trys ∧
      (generate_listings jl rs amount).trys ≤ amount + 10 := by
  have := generateLoop_inv jl rs amount
    (fun s => (s.listings.length : Int) ≤ amount ∧ 0 ≤ s.trys ∧ s.trys ≤ amount + 10)
    ?_ (amount + 10).toNat ⟨0, [], []⟩ ?_
  · exact this
  · intro s hc hs
    refine ⟨?_, ?_, ?_⟩
    · rcases stepState_listings_length jl rs s with h | h <;> rw [h] <;>
        push_cast <;> push_cast at hs <;> omega
    · rw [stepState_trys]; omega
    · rw [stepState_trys]; omega
  · refine ⟨?_, ?_, ?_⟩
    · show ((([] : List Listing).length : Int) ≤ amount)
      simpa using h0
    · show (0 : Int) ≤ 0
      omega
    · show (0 : Int) ≤ amount + 10
      omega

/-- The loop's exit condition holds at the returned state: the fuel of
`generate_listings` always outlasts the `while` guard. -/
theorem generate_listings_exit (jl : Str → Option ParsedListing)
    (rs : Int → Str) (amount : Int) :
    ¬ loopCond amount (generate_listings jl rs amount) := by
  apply generateLoop_exit
  show amount + 10 - (0 : Int) ≤ _
  simp

/-- When the guard is false at entry, the loop body never runs. -/
theorem generateLoop_not_cond (jl : Str → Option ParsedListing) (rs : Int → Str)
    (amount : Int) (s : GenState) (h : ¬ loopCond amount s) :
    ∀ fuel : Nat, generateLoop jl rs amount fuel s = s := by
  intro fuel
  cases fuel with
  | zero => rfl
  | succ n => rw [generateLoop, if_neg h]

/-- C1: for every target count `amount` (`0 ≤ amount`), `generate_listings`
accepts at most `amount` listings and makes at most `amount + 10`
generation attempts, and it terminates exactly when the target count is
reached or the attempt budget is exhausted: at the returned state either
the accepted count equals `amount` or the attempt count equals
`amount + 10`. -/
theorem generate_listings_bounds (jl : Str → Option ParsedListing)
    (rs : Int → Str) (amount : Int) (h0 : 0 ≤ amount) :
    ((generate_listings jl rs amount).listings.length : Int) ≤ amount ∧
      (generate_listings jl rs amount).trys ≤ amount + 10 ∧
      (((generate_listings jl rs amount).listings.length : Int) = amount ∨
        (generate_listings jl rs amount).trys = amount + 10) := by
  obtain ⟨h1, _, h3⟩ := generate_listings_inv_bounds jl rs amount h0
  have hexit := generate_listings_exit jl rs amount
  rw [not_and_or] at hexit
  refine ⟨h1, h3, ?_⟩
  omega

/-- Witness for C1 at `amount = 2` with an always-valid response oracle. -/
theorem generate_listings_bounds_witness :
    (0 : Int) ≤ 2 ∧
      (((generate_listings jlAlways rsFenced 2).listings.length : Int) ≤ 2 ∧
        (generate_listings jlAlways rsFenced 2).trys ≤ 2 + 10 ∧
        (((generate_listings jlAlways rsFenced 2).listings.length : Int) = 2 ∨
          (generate_listings jlAlways rsFenced 2).trys = 2 + 10)) :=
  ⟨by decide, generate_listings_bounds jlAlways rsFenced 2 (by decide)⟩

/-- C10: `generate_listings` writes the listings file unconditionally at
the end of its run; for every target count `amount ≤ 0` the loop body
never executes — the returned state has made zero attempts, accepted no
listing, logged nothing — and the written array is empty. -/
theorem generate_listings_nonpositive (jl : Str → Option ParsedListing)
    (rs : Int → Str) (amount : Int) (h : amount ≤ 0) :
    generate_listings jl rs amount = ⟨0, [], []⟩ ∧
      listingsFileContents jl rs amount = [] := by
  have hnc : ¬ loopCond amount (⟨0, [], []⟩ : GenState) := by
    rintro ⟨h1, -⟩
    simp only [List.length_nil, Nat.cast_zero] at h1
    omega
  have hrun : generate_listings jl rs amount = ⟨0, [], []⟩ :=
    generateLoop_not_cond jl rs amount _ hnc _
  refine ⟨hrun, ?_⟩
  unfold listingsFileContents
  rw [hrun]
  rfl

/-- Witness for C10 at `amount = -2`. -/
theorem generate_listings_nonpositive_witness :
    (-2 : Int) ≤ 0 ∧
      (generate_listings jlNever rsPlain (-2) = ⟨0, [], []⟩ ∧
        listingsFileContents jlNever rsPlain (-2) = []) :=
  ⟨by decide, generate_listings_nonpositive jlNever rsPlain (-2) (by decide)⟩

/-- C2: while the loop guard holds, an attempt whose response is malformed
— missing the `"```json"` marker, or failing to parse after stripping —
is recovered locally: some error line is logged, the listings are left
unchanged, the attempt counter advances (consuming one unit of the
attempt budget) and the loop simply continues from the next attempt; in
particular a malformed response never aborts the run. -/
theorem generate_listings_malformed_skipped (jl : Str → Option ParsedListing)
    (rs : Int → Str) (amount : Int) (fuel : Nat) (s : GenState)
    (hc : loopCond amount s)
    (hm : ¬ pyContains (rs (s.trys + 1)) fenceJson ∨
      jl (stripFence (rs (s.trys + 1))) = none) :
    ∃ m : Str, runAttempt jl rs (s.trys + 1) = .skipped m ∧
      generateLoop jl rs amount (fuel + 1) s =
        generateLoop jl rs amount fuel ⟨s.trys + 1, s.listings, s.log ++ [m]⟩ := by
  have hskip : ∃ m : Str, runAttempt jl rs (s.trys + 1) = .skipped m := by
    unfold runAttempt
    by_cases hf : pyContains (rs (s.trys + 1)) fenceJson
    · rw [if_pos hf]
      rcases hm with hm | hm
      · exact absurd hf hm
      · rw [hm]
        exact ⟨_, rfl⟩
    · rw [if_neg hf]
      exact ⟨_, rfl⟩
  obtain ⟨m, hm2⟩ := hskip
  refine ⟨m, hm2, ?_⟩
  rw [generateLoop, if_pos hc]
  have hstep : stepState jl rs s = ⟨s.trys + 1, s.listings, s.log ++ [m]⟩ := by
    unfold stepState
    rw [hm2]
  rw [hstep]

/-- Witness for C2: a fenced but unparsable response on attempt 1. -/
theorem generate_listings_malformed_skipped_witness :
    loopCond 1 ⟨0, [], []⟩ ∧
      ∃ m : Str, runAttempt jlNever rsFenced ((0 : Int) + 1) = .skipped m ∧
        generateLoop jlNever rsFenced 1 (0 + 1) ⟨0, [], []⟩ =
          generateLoop jlNever rsFenced 1 0 ⟨(0 : Int) + 1, [], ([] : List Str) ++ [m]⟩ :=
  ⟨by decide,
    generate_listings_malformed_skipped jlNever rsFenced 1 0 ⟨0, [], []⟩ (by decide)
      (Or.inr rfl)⟩

/-- C5: while the loop guard holds, an attempt whose response lacks the
`"```json"` marker is skipped: the accepted-listing list (hence its
count) is unchanged, yet the attempt counter is incremented by that
attempt, and the loop continues. -/
theorem generate_listings_no_fence_skip (jl : Str → Option ParsedListing)
    (rs : Int → Str) (amount : Int) (fuel : Nat) (s : GenState)
    (hc : loopCond amount s)
    (hnf : ¬ pyContains (rs (s.trys + 1)) fenceJson) :
    (stepState jl rs s).listings = s.listings ∧
      (stepState jl rs s).trys = s.trys + 1 ∧
      generateLoop jl rs amount (fuel + 1) s =
        generateLoop jl rs amount fuel (stepState jl rs s) := by
  have hra : runAttempt jl rs (s.trys + 1) =
      .skipped (errLine (s.trys + 1) (rs (s.trys + 1))) := by
    unfold runAttempt
    rw [if_neg hnf]
  refine ⟨?_, stepState_trys jl rs s, ?_⟩
  · unfold stepState
    rw [hra]
  · rw [generateLoop, if_pos hc]

/-- Witness for C5: an unfenced response on attempt 1 (the parse oracle
would even succeed, showing the skip is caused by the missing marker). -/
theorem generate_listings_no_fence_skip_witness :
    loopCond 1 ⟨0, [], []⟩ ∧
      ((stepState jlAlways rsPlain ⟨0, [], []⟩).listings = [] ∧
        (stepState jlAlways rsPlain ⟨0, [], []⟩).trys = (0 : Int) + 1 ∧
        generateLoop jlAlways rsPlain 1 (0 + 1) ⟨0, [], []⟩ =
          generateLoop jlAlways rsPlain 1 0 (stepState jlAlways rsPlain ⟨0, [], []⟩)) :=
  ⟨by decide,
    generate_listings_no_fence_skip jlAlways rsPlain 1 0 ⟨0, [], []⟩ (by decide)
      (by decide)⟩

/-- An accepted attempt carries the attempt number as its identifier. -/
theorem runAttempt_accepted_id (jl : Str → Option ParsedListing) (rs : Int → Str)
    (t : Int) (l : Listing) (h : runAttempt jl rs t = .accepted l) : l.id = t := by
  unfold runAttempt at h
  by_cases hf : pyContains (rs t) fenceJson
  · rw [if_pos hf] at h
    cases hjl : jl (stripFence (rs t)) with
    | some p =>
      rw [hjl] at h
      injection h with h2
      rw [← h2]
      rfl
    | none =>
      rw [hjl] at h
      exact absurd h (by simp)
  · rw [if_neg hf] at h
    exact absurd h (by simp)

/-- C4: every accepted listing's identifier equals the attempt number on
which it was accepted (`runAttempt` at the stored identifier reproduces
the listing), and the identifiers are strictly increasing in acceptance
order, hence unique. -/
theorem generate_listings_ids_spec (jl : Str → Option ParsedListing)
    (rs : Int → Str) (amount : Int) :
    ((generate_listings jl rs amount).listings.map (fun l => l.id)).Pairwise (· < ·) ∧
      ((generate_listings jl rs amount).listings.map (fun l => l.id)).Nodup ∧
      ∀ l ∈ (generate_listings jl rs amount).listings,
        runAttempt jl rs l.id = .accepted l := by
  have hmain := generateLoop_inv jl rs amount
    (fun s => (s.listings.map (fun l => l.id)).Pairwise (· < ·) ∧
      ∀ l ∈ s.listings, l.id ≤ s.trys ∧ runAttempt jl rs l.id = .accepted l)
    ?_ (amount + 10).toNat ⟨0, [], []⟩ ⟨by simp, by simp⟩
  · obtain ⟨hpw, hmem⟩ := hmain
    exact ⟨hpw, hpw.imp (fun hab => ne_of_lt hab), fun l hl => (hmem l hl).2⟩
  · intro s hc hinv
    obtain ⟨hpw, hmem⟩ := hinv
    cases hra : runAttempt jl rs (s.trys + 1) with
    | skipped m =>
      rw [stepState_skipped jl rs s m hra]
      refine ⟨hpw, fun l hl => ⟨?_, (hmem l hl).2⟩⟩
      show l.id ≤ s.trys + 1
      have := (hmem l hl).1
      omega
    | accepted l =>
      have hid : l.id = s.trys + 1 := runAttempt_accepted_id jl rs _ l hra
      rw [stepState_accepted jl rs s l hra]
      constructor
      · show ((s.listings ++ [l]).map (fun l => l.id)).Pairwise (· < ·)
        rw [List.map_append, List.pairwise_append]
        refine ⟨hpw, by simp, ?_⟩
        intro x hx y hy
        simp only [List.map_cons, List.map_nil, List.mem_singleton] at hy
        obtain ⟨l0, hl0, rfl⟩ := List.mem_map.mp hx
        rw [hy, hid]
        have := (hmem l0 hl0).1
        omega
      · intro l0 hl0
        rw [show (GenState.mk (s.trys + 1) (s.listings ++ [l]) s.log).listings =
          s.listings ++ [l] from rfl] at hl0
        rcases List.mem_append.mp hl0 with h | h
        · refine ⟨?_, (hmem l0 h).2⟩
          show l0.id ≤ s.trys + 1
          have := (hmem l0 h).1
          omega
        · rw [List.mem_singleton] at h
          subst h
          refine ⟨?_, by rw [hid]; exact hra⟩
          show l0.id ≤ s.trys + 1
          omega

/-- Witness for C4: with the always-valid oracle and one requested
listing, the single accepted listing is reproduced by its own attempt. -/
theorem generate_listings_ids_spec_witness :
    mkListing 1 exParsed ∈ (generate_listings jlAlways rsFenced 1).listings ∧
      runAttempt jlAlways rsFenced (mkListing 1 exParsed).id =
        .accepted (mkListing 1 exParsed) :=
  ⟨by decide,
    (generate_listings_ids_spec jlAlways rsFenced 1).2.2 (mkListing 1 exParsed)
      (by decide)⟩

theorem fenceMark_eq : fenceMark = [tick, tick, tick] := by decide

theorem pyReplaceGo_subset (p r : Str) :
    ∀ (s : Str) (k : Nat) (a : Char), a ∈ pyReplaceGo p r k s → a ∈ s ∨ a ∈ r := by
  intro s
  induction s with
  | nil =>
    intro k a ha
    cases k <;> simp [pyReplaceGo] at ha
  | cons c cs ih =>
    intro k a ha
    cases k with
    | succ k0 =>
      rcases ih k0 a ha with h | h
      · exact Or.inl (List.mem_cons_of_mem c h)
      · exact Or.inr h
    | zero =>
      rw [pyReplaceGo] at ha
      by_cases hcond : p ≠ [] ∧ p <+: (c :: cs)
      · rw [if_pos hcond] at ha
        rcases List.mem_append.mp ha with h | h
        · exact Or.inr h
        · rcases ih _ a h with h2 | h2
          · exact Or.inl (List.mem_cons_of_mem c h2)
          · exact Or.inr h2
      · rw [if_neg hcond] at ha
        rcases List.mem_cons.mp ha with h | h
        · exact Or.inl (h ▸ List.mem_cons_self a cs)
        · rcases ih 0 a h with h2 | h2
          · exact Or.inl (List.mem_cons_of_mem c h2)
          · exact Or.inr h2

theorem go_noPre (x : Char) (t : Str) (h : ¬ fenceMark <+: (x :: t)) :
    pyReplaceGo fenceMark [] 0 (x :: t) = x :: pyReplaceGo fenceMark [] 0 t := by
  rw [pyReplaceGo, if_neg (fun hcon => h hcon.2)]

theorem go_pre (u : Str) :
    pyReplaceGo fenceMark [] 0 (fenceMark ++ u) = pyReplaceGo fenceMark [] 0 u := by
  rw [fenceMark_eq]
  show pyReplaceGo fenceMark [] 0 (tick :: tick :: tick :: u) = _
  rw [pyReplaceGo, if_pos ⟨by decide, ⟨u, by rw [fenceMark_eq]; rfl⟩⟩]
  rw [show fenceMark.length - 1 = 2 by decide]
  rfl

theorem fence_go_spec :
    ∀ (n : Nat) (s : Str), s.length ≤ n →
      (¬ fenceMark <:+: pyReplaceGo fenceMark [] 0 s) ∧
      (∀ k : Nat, k ≤ 2 → List.replicate k tick <+: pyReplaceGo fenceMark [] 0 s →
        List.replicate k tick <+: s) := by
  intro n
  induction n with
  | zero =>
    intro s hs
    have hnil : s = [] := List.eq_nil_of_length_eq_zero (Nat.le_zero.mp hs)
    subst hnil
    constructor
    · intro hinf
      have h3 := hinf.length_le
      rw [fenceMark_eq] at h3
      simp [pyReplaceGo] at h3
    · intro k hk hpre
      have h3 := hpre.length_le
      simp [pyReplaceGo] at h3
      subst h3
      exact List.nil_prefix
  | succ n ih =>
    intro s hs
    cases s with
    | nil =>
      constructor
      · intro hinf
        have h3 := hinf.length_le
        rw [fenceMark_eq] at h3
        simp [pyReplaceGo] at h3
      · intro k hk hpre
        have h3 := hpre.length_le
        simp [pyReplaceGo] at h3
        subst h3
        exact List.nil_prefix
    | cons x t =>
      by_cases hp : fenceMark <+: (x :: t)
      · obtain ⟨u, hu⟩ := hp
        have hlen : u.length ≤ n := by
          have := congrArg List.length hu
          rw [List.length_append, fenceMark_eq] at this
          simp at this
          simp at hs
          omega
        have ihu := ih u hlen
        rw [← hu, go_pre u]
        constructor
        · exact ihu.1
        · intro k hk _
          rw [fenceMark_eq]
          interval_cases k
          · exact List.nil_prefix
          · exact ⟨[tick, tick] ++ u, rfl⟩
          · exact ⟨[tick] ++ u, rfl⟩
      · rw [go_noPre x t hp]
        have iht := ih t (by simp at hs; omega)
        constructor
        · intro hinf
          rcases List.infix_cons_iff.mp hinf with hpre | hinf2
          · rw [fenceMark_eq] at hpre
            obtain ⟨v, hv⟩ := hpre
            rw [List.cons_append] at hv
            injection hv with hx hv2
            have h2 : List.replicate 2 tick <+: pyReplaceGo fenceMark [] 0 t :=
              ⟨v, by simpa using hv2⟩
            have h3 := iht.2 2 (by omega) h2
            obtain ⟨w, hw⟩ := h3
            exact hp ⟨w, by rw [fenceMark_eq, ← hx]; simp at hw ⊢; rw [hw]⟩
          · exact iht.1 hinf2
        · intro k hk hpre
          cases k with
          | zero => exact List.nil_prefix
          | succ k0 =>
            rw [List.replicate_succ] at hpre ⊢
            obtain ⟨v, hv⟩ := hpre
            rw [List.cons_append] at hv
            injection hv with hx hv2
            have h2 := iht.2 k0 (by omega) ⟨v, hv2⟩
            rw [← hx]
            exact List.cons_prefix_cons.mpr ⟨rfl, h2⟩

theorem pyReplace_fence_free (s : Str) : ¬ fenceMark <:+: pyReplace s fenceMark [] :=
  (fence_go_spec s.length s le_rfl).1

theorem stripFence_fence_free (content : Str) : ¬ fenceMark <:+: stripFence content :=
  pyReplace_fence_free (pyReplace content fenceJson [])

theorem natChars_mem_digit :
    ∀ (fuel n : Nat) (c : Char), c ∈ natChars fuel n → ∃ d, d < 10 ∧ c = digitChar d := by
  intro fuel
  induction fuel with
  | zero => intro n c hc; simp [natChars] at hc
  | succ f ih =>
    intro n c hc
    rw [natChars] at hc
    by_cases h : n < 10
    · rw [if_pos h] at hc
      rw [List.mem_singleton] at hc
      exact ⟨n, h, hc⟩
    · rw [if_neg h] at hc
      rcases List.mem_append.mp hc with h2 | h2
      · exact ih _ c h2
      · rw [List.mem_singleton] at h2
        exact ⟨n % 10, Nat.mod_lt n (by omega), h2⟩

theorem digitChar_ne : ∀ d < 10, ',' ≠ digitChar d ∧ ':' ≠ digitChar d ∧ '\n' ≠ digitChar d := by
  decide

theorem pyStr_chars (i : Int) (c : Char) (hc : c ∈ pyStr i) :
    c = '-' ∨ ∃ d, d < 10 ∧ c = digitChar d := by
  unfold pyStr at hc
  by_cases h : i < 0
  · rw [if_pos h] at hc
    rcases List.mem_cons.mp hc with h2 | h2
    · exact Or.inl h2
    · exact Or.inr (natChars_mem_digit _ _ c h2)
  · rw [if_neg h] at hc
    exact Or.inr (natChars_mem_digit _ _ c hc)

theorem pyStr_comma_free (i : Int) : ',' ∉ pyStr i := by
  intro hmem
  rcases pyStr_chars i ',' hmem with h | ⟨d, hd, h⟩
  · exact absurd h (by decide)
  · exact (digitChar_ne d hd).1 h

theorem pyStr_colon_free (i : Int) : ':' ∉ pyStr i := by
  intro hmem
  rcases pyStr_chars i ':' hmem with h | ⟨d, hd, h⟩
  · exact absurd h (by decide)
  · exact (digitChar_ne d hd).2.1 h

theorem pyStr_newline_free (i : Int) : '\n' ∉ pyStr i := by
  intro hmem
  rcases pyStr_chars i '\n' hmem with h | ⟨d, hd, h⟩
  · exact absurd h (by decide)
  · exact (digitChar_ne d hd).2.2 h

theorem splitOnChar_no_sep (sep : Char) :
    ∀ s : Str, sep ∉ s → splitOnChar sep s = [s] := by
  intro s
  induction s with
  | nil => intro _; rfl
  | cons c cs ih =>
    intro h
    have hc : c ≠ sep := fun hc => h (hc ▸ List.mem_cons_self c cs)
    rw [splitOnChar, if_neg hc, ih (fun hmem => h (List.mem_cons_of_mem c hmem))]

theorem splitOnChar_append (sep : Char) :
    ∀ (a b : Str), sep ∉ a → splitOnChar sep (a ++ sep :: b) = a :: splitOnChar sep b := by
  intro a
  induction a with
  | nil =>
    intro b _
    show splitOnChar sep (sep :: b) = [] :: splitOnChar sep b
    rw [splitOnChar, if_pos rfl]
  | cons c cs ih =>
    intro b h
    have hc : c ≠ sep := fun hc => h (hc ▸ List.mem_cons_self c cs)
    show splitOnChar sep (c :: (cs ++ sep :: b)) = _
    rw [splitOnChar, if_neg hc, ih b (fun hm => h (List.mem_cons_of_mem c hm))]

theorem readlines_append :
    ∀ (a rest : Str), '\n' ∉ a →
      readlines (a ++ '\n' :: rest) = (a ++ ['\n']) :: readlines rest := by
  intro a
  induction a with
  | nil =>
    intro rest _
    show readlines ('\n' :: rest) = ['\n'] :: readlines rest
    rw [readlines]
    cases h : readlines rest with
    | nil => rfl
    | cons l ls =>
      show (if '\n' = '\n' then ['\n'] :: l :: ls else ('\n' :: l) :: ls) = ['\n'] :: l :: ls
      rw [if_pos rfl]
  | cons c cs ih =>
    intro rest h
    have hc : c ≠ '\n' := fun hc => h (hc ▸ List.mem_cons_self c cs)
    show readlines (c :: (cs ++ '\n' :: rest)) = ((c :: cs) ++ ['\n']) :: readlines rest
    rw [readlines, ih rest (fun hm => h (List.mem_cons_of_mem c hm))]
    show (if c = '\n' then [c] :: (cs ++ ['\n']) :: readlines rest
        else (c :: (cs ++ ['\n'])) :: readlines rest) = (c :: cs ++ ['\n']) :: readlines rest
    rw [if_neg hc]
    rfl

theorem readlines_flatten :
    ∀ lines : List Str, (∀ x ∈ lines, '\n' ∉ x) →
      readlines ((lines.map (fun l => l ++ ['\n'])).flatten) =
        lines.map (fun l => l ++ ['\n']) := by
  intro lines
  induction lines with
  | nil => intro _; rfl
  | cons a rest ih =>
    intro h
    rw [List.map_cons, List.flatten_cons]
    have hassoc : (a ++ ['\n']) ++ ((rest.map (fun l => l ++ ['\n'])).flatten)
        = a ++ '\n' :: ((rest.map (fun l => l ++ ['\n'])).flatten) := by
      rw [List.append_assoc]
      rfl
    rw [hassoc, readlines_append a _ (h a (List.mem_cons_self a rest)),
      ih (fun x hx => h x (List.mem_cons_of_mem a hx))]

theorem stripFence_subset (content : Str) (c : Char) (hc : c ∈ stripFence content) :
    c ∈ content := by
  unfold stripFence pyReplace at hc
  rcases pyReplaceGo_subset fenceMark [] _ _ c hc with h | h
  · rcases pyReplaceGo_subset fenceJson [] _ _ c h with h2 | h2
    · exact h2
    · simp at h2
  · simp at h

theorem convertedText_subset (content : Str) (c : Char) (hc : c ∈ convertedText content) :
    c ∈ content := by
  unfold convertedText at hc
  by_cases h : pyContains content fenceJson
  · rw [if_pos h] at hc
    exact stripFence_subset content c hc
  · rw [if_neg h] at hc
    exact hc

theorem enhanceDoc_newline_free (respond : Listing → Str) (l : Listing)
    (h1 : '\n' ∉ respond l) (h2 : '\n' ∉ l.description)
    (h3 : '\n' ∉ l.neighborhood_description) :
    '\n' ∉ (enhanceDoc respond l).page_content := by
  intro hmem
  simp only [enhanceDoc, List.mem_append] at hmem
  rcases hmem with ((((((hm | hm) | hm) | hm) | hm) | hm) | hm) | hm
  · exact absurd hm (by decide)
  · exact pyStr_newline_free l.id hm
  · exact absurd hm (by decide)
  · exact h1 (convertedText_subset _ _ hm)
  · exact absurd hm (by decide)
  · exact h2 hm
  · exact absurd hm (by decide)
  · exact h3 hm

/-- C6 counterexample: the claim "exactly one output line per input
listing" fails when an LLM response contains a newline — one listing then
yields two lines in the written file. -/
theorem enhancer_line_count_cex :
    [exListing].length = 1 ∧
      (readlines (enhancedFileContents (fun _ => ['a', '\n', 'b']) [exListing])).length = 2 := by
  constructor
  · rfl
  · decide

/-- Re-reading the Enhancer's file yields exactly the written lines when
no line has an interior newline. -/
theorem readlines_enhancedFile (respond : Listing → Str) (ls : List Listing)
    (h : ∀ l ∈ ls, '\n' ∉ respond l ∧ '\n' ∉ l.description ∧
      '\n' ∉ l.neighborhood_description) :
    readlines (enhancedFileContents respond ls) =
      ls.map (fun l => (enhanceDoc respond l).page_content ++ ['\n']) := by
  have hfree : ∀ x ∈ ls.map (fun l => (enhanceDoc respond l).page_content), '\n' ∉ x := by
    intro x hx
    obtain ⟨l, hl, rfl⟩ := List.mem_map.mp hx
    exact enhanceDoc_newline_free respond l (h l hl).1 (h l hl).2.1 (h l hl).2.2
  have hmain := readlines_flatten _ hfree
  rw [List.map_map] at hmain
  unfold enhancedFileContents generate_enhanced_listings
  rw [List.map_map]
  exact hmain

/-- C6 (amended): the Enhancer emits exactly one document per input
listing, in input order; and provided no LLM response and no listing text
field contains a newline character, the written file contains exactly one
line per listing, in the same order as the input array. -/
theorem enhancer_lines_spec (respond : Listing → Str) (ls : List Listing)
    (h : ∀ l ∈ ls, '\n' ∉ respond l ∧ '\n' ∉ l.description ∧
      '\n' ∉ l.neighborhood_description) :
    (generate_enhanced_listings respond ls).length = ls.length ∧
      (∀ i : Nat, (generate_enhanced_listings respond ls)[i]? =
        (ls[i]?).map (enhanceDoc respond)) ∧
      readlines (enhancedFileContents respond ls) =
        ls.map (fun l => (enhanceDoc respond l).page_content ++ ['\n']) := by
  refine ⟨by simp [generate_enhanced_listings], ?_,
    readlines_enhancedFile respond ls h⟩
  intro i
  simp [generate_enhanced_listings]

/-- Witness for the amended C6 on a concrete newline-free run. -/
theorem enhancer_lines_spec_witness :
    readlines (enhancedFileContents (fun _ => "hello".toList) [exListing]) =
      [exListing].map
        (fun l => (enhanceDoc (fun _ => "hello".toList) l).page_content ++ ['\n']) :=
  (enhancer_lines_spec (fun _ => "hello".toList) [exListing] (by decide)).2.2

/-- C7 counterexample: a response wrapped in a bare code fence (no
`"```json"` tag) is not stripped at all — the emitted line contains the
fence markers verbatim. -/
theorem enhancer_fence_cex :
    fenceMark <:+: (enhanceDoc (fun _ => "``` plain fence ```".toList) exListing).page_content ∧
      convertedText "``` plain fence ```".toList = "``` plain fence ```".toList := by
  constructor
  · decide
  · decide

/-- C7 (amended): the emitted line is the concatenation of identifier,
converted text, original description and neighborhood description, where
the converted text is the response with code fences stripped when the
`"```json"` marker is present (and the response verbatim otherwise); in
the stripped case the converted-text segment contains no code-fence
marker. -/
theorem enhancer_strip_spec (respond : Listing → Str) (l : Listing) :
    (enhanceDoc respond l).page_content =
      "id: ".toList ++ pyStr l.id ++ ", converted description: ".toList ++
        convertedText (respond l) ++ ", original description: ".toList ++
        l.description ++ ", neighborhood_description: ".toList ++
        l.neighborhood_description ∧
      (pyContains (respond l) fenceJson → ¬ fenceMark <:+: convertedText (respond l)) := by
  refine ⟨rfl, ?_⟩
  intro hcont
  unfold convertedText
  rw [if_pos hcont]
  exact stripFence_fence_free (respond l)

/-- Witness for the amended C7 at a concrete fenced response. -/
theorem enhancer_strip_spec_witness :
    pyContains ((fun _ : Listing => "```json data```".toList) exListing) fenceJson ∧
      ¬ fenceMark <:+: convertedText ((fun _ : Listing => "```json data```".toList) exListing) :=
  ⟨by decide,
    (enhancer_strip_spec (fun _ => "```json data```".toList) exListing).2 (by decide)⟩

/-- One listing object survives the write/read round trip. -/
theorem loadListing_dumpListing (l : Listing) : loadListing (dumpListing l) = some l := rfl

/-- A whole listing array survives the write/read round trip. -/
theorem loadListings_map_dump (ls : List Listing) :
    loadListings (ls.map dumpListing) = some ls := by
  induction ls with
  | nil => rfl
  | cons a rest ih =>
    unfold loadListings at ih ⊢
    rw [List.map_cons, List.mapM_cons, loadListing_dumpListing a, ih]
    rfl

/-- C9: every listing written by the Generator and re-read from
`listings.json` is field-for-field identical to the written one, and the
serialized object carries exactly the eight keys (identifier plus the
seven descriptive fields) in their insertion order — nothing lost or
reordered. -/
theorem listings_roundtrip_spec (ls : List Listing) (l : Listing) :
    loadListings (ls.map dumpListing) = some ls ∧
      (dumpListing l).map Prod.fst =
        ["id".toList, "neighborhood".toList, "price".toList, "bedrooms".toList,
         "bathrooms".toList, "size".toList, "description".toList,
         "neighborhood_description".toList] :=
  ⟨loadListings_map_dump ls, rfl⟩

/-- C8: the raw-index document of a listing has as its text exactly the
seven descriptive fields in order — the listing object minus the `"id"`
key — while the identifier is carried separately in the metadata. -/
theorem raw_documents_spec (ls : List Listing) (l : Listing) :
    raw_documents ls = ls.map (fun x =>
      { page_content :=
          [("neighborhood".toList, JsonVal.str x.neighborhood),
           ("price".toList, JsonVal.str x.price),
           ("bedrooms".toList, JsonVal.str x.bedrooms),
           ("bathrooms".toList, JsonVal.str x.bathrooms),
           ("size".toList, JsonVal.str x.size),
           ("description".toList, JsonVal.str x.description),
           ("neighborhood_description".toList, JsonVal.str x.neighborhood_description)],
        metadata := [("id".toList, JsonVal.int x.id),
                     ("neighborhood".toList, JsonVal.str x.neighborhood),
                     ("price".toList, JsonVal.str x.price)] }) ∧
      lookupKey (rawDoc l).metadata "id".toList = some (JsonVal.int l.id) :=
  ⟨rfl, rfl⟩

theorem parseLineId_append (a tail : Str) (h : ',' ∉ a) :
    parseLineId (a ++ ',' :: tail) =
      (match splitOnChar ':' a with
        | _ :: second :: _ => some second
        | _ => none) := by
  unfold parseLineId
  rw [splitOnChar_append ',' a tail h]

theorem splitOnChar_colon_idnum (i : Int) :
    splitOnChar ':' ("id: ".toList ++ pyStr i) = [['i', 'd'], ' ' :: pyStr i] := by
  have h1 : "id: ".toList ++ pyStr i = ['i', 'd'] ++ ':' :: (' ' :: pyStr i) := rfl
  rw [h1, splitOnChar_append ':' _ _ (by decide), splitOnChar_no_sep ':' _ ?_]
  intro hm
  rcases List.mem_cons.mp hm with h | h
  · exact absurd h (by decide)
  · exact pyStr_colon_free i h

theorem parseLineId_enhanced (respond : Listing → Str) (l : Listing) :
    parseLineId ((enhanceDoc respond l).page_content ++ ['\n']) =
      some (' ' :: pyStr l.id) := by
  have hb : ',' ∉ "id: ".toList ++ pyStr l.id := by
    intro hm
    rcases List.mem_append.mp hm with h | h
    · exact absurd h (by decide)
    · exact pyStr_comma_free l.id h
  have hline : (enhanceDoc respond l).page_content ++ ['\n'] =
      ("id: ".toList ++ pyStr l.id) ++ ',' ::
        (" converted description: ".toList ++ (convertedText (respond l) ++
          (", original description: ".toList ++ (l.description ++
          (", neighborhood_description: ".toList ++
            (l.neighborhood_description ++ ['\n'])))))) := by
    simp only [enhanceDoc, List.append_assoc]
    rfl
  rw [hline, parseLineId_append _ _ hb, splitOnChar_colon_idnum l.id]

theorem semanticDocOfLine_enhanced (respond : Listing → Str) (l : Listing) :
    semanticDocOfLine ((enhanceDoc respond l).page_content ++ ['\n']) =
      some (semanticDocExpected respond l) := by
  unfold semanticDocOfLine
  rw [parseLineId_enhanced]
  rfl

theorem mapM_map_some {α β γ : Type} (f : β → Option γ) (g : α → β) (h : α → γ)
    (ls : List α) (hfg : ∀ a ∈ ls, f (g a) = some (h a)) :
    (ls.map g).mapM f = some (ls.map h) := by
  induction ls with
  | nil => rfl
  | cons a rest ih =>
    rw [List.map_cons, List.mapM_cons, hfg a (List.mem_cons_self a rest),
      ih (fun x hx => hfg x (List.mem_cons_of_mem a hx)), List.map_cons]
    rfl

/-- The semantic documents HomeMatch builds from the Enhancer's file, in
the newline-free case: one per listing, in order, each carrying the
*string* `" <id>"` as metadata. -/
theorem semantic_docs_enhanced (respond : Listing → Str) (ls : List Listing)
    (h : ∀ l ∈ ls, '\n' ∉ respond l ∧ '\n' ∉ l.description ∧
      '\n' ∉ l.neighborhood_description) :
    semantic_enhanced_documents (enhancedFileContents respond ls) =
      some (ls.map (semanticDocExpected respond)) := by
  unfold semantic_enhanced_documents
  rw [readlines_enhancedFile respond ls h]
  exact mapM_map_some semanticDocOfLine _ _ ls
    (fun l _ => semanticDocOfLine_enhanced respond l)

/-- C3 counterexample: with a single indexed listing the two searches
return one result, not K = 2; the identifier HomeMatch parses back into
the semantic document's metadata is the *string* `" 1"`, which is not the
integer identifier `1` the Enhancer embedded in its own document
metadata; and a response containing a newline makes the semantic
document construction fail outright. -/
theorem similarity_search_metadata_cex :
    (similarity_search id (raw_documents [exListing]) 2).length = 1 ∧
      (semantic_enhanced_documents
          (enhancedFileContents (fun _ => "great".toList) [exListing])).map
        (fun ds => ds.map (fun d => d.metadata)) =
        some [[("id".toList, JsonVal.str " 1".toList)]] ∧
      (enhanceDoc (fun _ => "great".toList) exListing).metadata =
        [("id".toList, JsonVal.int 1)] ∧
      JsonVal.str " 1".toList ≠ JsonVal.int 1 ∧
      semantic_enhanced_documents
        (enhancedFileContents (fun _ => ['a', '\n', 'b']) [exListing]) = none := by
  refine ⟨by decide, by decide, by decide, by decide, by decide⟩

/-- C3 (amended): for a fixed set of listings, a fixed preference query
(absorbed into the similarity rankings `rank1`, `rank2`, which permute the
indexed documents) and newline-free text, each similarity search returns
exactly `min K n` results (`K = 2`, `n` the number of indexed documents —
exactly `K` whenever at least `K` documents are indexed); every raw-index
result is the document of an originating listing and carries that
listing's integer identifier in its metadata; every semantic-index result
is the reconstructed document of an originating listing and carries as
metadata the string `" <id>"` parsed from the line — identifying, but not
equal to, the integer identifier the Enhancer embedded. -/
theorem similarity_search_results_spec (ls : List Listing) (respond : Listing → Str)
    (rank1 : List (Document (List (Str × JsonVal))) → List (Document (List (Str × JsonVal))))
    (rank2 : List (Document Str) → List (Document Str))
    (h : ∀ l ∈ ls, '\n' ∉ respond l ∧ '\n' ∉ l.description ∧
      '\n' ∉ l.neighborhood_description)
    (hr1 : (rank1 (raw_documents ls)).Perm (raw_documents ls))
    (hr2 : (rank2 (ls.map (semanticDocExpected respond))).Perm
      (ls.map (semanticDocExpected respond))) :
    (similarity_search rank1 (raw_documents ls) 2).length = min 2 ls.length ∧
      (∀ d ∈ similarity_search rank1 (raw_documents ls) 2, ∃ l ∈ ls, d = rawDoc l ∧
        lookupKey d.metadata "id".toList = some (JsonVal.int l.id)) ∧
      semantic_enhanced_documents (enhancedFileContents respond ls) =
        some (ls.map (semanticDocExpected respond)) ∧
      (similarity_search rank2 (ls.map (semanticDocExpected respond)) 2).length =
        min 2 ls.length ∧
      (∀ d ∈ similarity_search rank2 (ls.map (semanticDocExpected respond)) 2,
        ∃ l ∈ ls, d = semanticDocExpected respond l ∧
          lookupKey d.metadata "id".toList =
            some (JsonVal.str (' ' :: pyStr l.id))) := by
  refine ⟨?_, ?_, semantic_docs_enhanced respond ls h, ?_, ?_⟩
  · unfold similarity_search
    rw [List.length_take, hr1.length_eq]
    simp [raw_documents]
  · intro d hd
    have hmem : d ∈ raw_documents ls := hr1.mem_iff.mp (List.mem_of_mem_take hd)
    obtain ⟨l, hl, rfl⟩ := List.mem_map.mp hmem
    exact ⟨l, hl, rfl, rfl⟩
  · unfold similarity_search
    rw [List.length_take, hr2.length_eq]
    simp
  · intro d hd
    have hmem := hr2.mem_iff.mp (List.mem_of_mem_take hd)
    obtain ⟨l, hl, rfl⟩ := List.mem_map.mp hmem
    exact ⟨l, hl, rfl, rfl⟩

/-- Witness for the amended C3 with two listings and the identity
ranking: the searches return exactly two results. -/
theorem similarity_search_results_spec_witness :
    (similarity_search id (raw_documents [exListing, exListing2]) 2).length =
      min 2 [exListing, exListing2].length :=
  (similarity_search_results_spec [exListing, exListing2] (fun _ => "hello".toList)
    id id (by decide) (List.Perm.refl _) (List.Perm.refl _)).1
